import Mathlib

/-!
Shallow embedding of the ChatLab ingestion, merge and query core, with
verification of the specified behaviours against the embedded code.

The definitions below are translated from the TypeScript sources:
* `streamImport.ts` (import pipeline: message validation, member insertion,
  nickname-history tracking and compaction),
* `merger/index.ts` and `merger/tempCache.ts` (message key, conflict
  detection, merge with dedup),
* `worker/query/messages.ts` (context window, cursor pagination),
* the basic query module (weekday distribution, member deletion).

JavaScript runtime details that matter are embedded explicitly: string
`.length` counts UTF-16 code units, template literals print non-negative
integers in decimal, `Map`/`Set` iterate in insertion order, `Array.sort`
is stable, and truthiness treats the empty string as false.
-/

set_option linter.unusedVariables false

namespace ChatLab

/-! ## JavaScript string and number helpers -/

/-- Whitespace characters recognised by JavaScript `trim()` and the regex
class used for matching. -/
def isJsWhitespace (c : Char) : Bool :=
  c.toNat = 9 || c.toNat = 10 || c.toNat = 11 || c.toNat = 12 || c.toNat = 13 ||
  c.toNat = 32 || c.toNat = 160 || c.toNat = 5760 ||
  (8192 ≤ c.toNat && c.toNat ≤ 8202) || c.toNat = 8232 || c.toNat = 8233 ||
  c.toNat = 8239 || c.toNat = 8287 || c.toNat = 12288 || c.toNat = 65279

/-- Line terminators, which the regex dot does not match. -/
def isLineTerminator (c : Char) : Bool :=
  c.toNat = 10 || c.toNat = 13 || c.toNat = 8232 || c.toNat = 8233

/-- JavaScript `String.prototype.trim`. -/
def jsTrim (s : List Char) : List Char :=
  ((s.dropWhile isJsWhitespace).reverse.dropWhile isJsWhitespace).reverse

/-- Number of UTF-16 code units a character occupies. -/
def utf16Units (c : Char) : Nat := if c.toNat < 65536 then 1 else 2

/-- JavaScript string `.length`: number of UTF-16 code units. -/
def utf16Length (s : String) : Nat := s.data.foldl (fun a c => a + utf16Units c) 0

/-- Decimal digit character. -/
def digitChar (d : Nat) : Char := Char.ofNat (48 + d)

/-- Decimal representation of a non-negative integer, as produced by a
JavaScript template literal. -/
def natDigits (n : Nat) : List Char :=
  if h : n < 10 then [digitChar n]
  else natDigits (n / 10) ++ [digitChar (n % 10)]
decreasing_by exact Nat.div_lt_self (by omega) (by omega)

/-- Decimal representation as a `String`. -/
def natStr (n : Nat) : String := String.mk (natDigits n)

/-- Numeric value of a decimal digit character. -/
def digitVal (c : Char) : Nat := c.toNat - 48

/-- Reads a digit list back as a number (used to invert `natDigits`). -/
def decodeDigits (l : List Char) : Nat := l.foldl (fun a c => a * 10 + digitVal c) 0

/-- JavaScript `x || null` applied to an optional string: the empty string
collapses to null. -/
def orNull (s : Option String) : Option String :=
  match s with
  | none => none
  | some v => if v = "" then none else some v

/-- Truthiness test `!x` for an optional string: missing or empty. -/
def strFalsy : Option String → Bool
  | none => true
  | some s => s = ""

/-- First-occurrence deduplication, as a JavaScript `Set` built by iterating a
list (only membership and size of the result are consulted). -/
def dedupKeys {α : Type} [DecidableEq α] (l : List α) : List α :=
  l.foldl (fun acc x => if x ∈ acc then acc else acc ++ [x]) []

/-- Insertion-ordered grouping, as a JavaScript `Map` from keys to arrays
built by pushing each element onto its key's bucket. -/
def groupByKey {α κ : Type} [DecidableEq κ] (key : α → κ) (l : List α) :
    List (κ × List α) :=
  l.foldl (fun acc x =>
    if acc.any (fun g => g.1 = key x) then
      acc.map (fun g => if g.1 = key x then (g.1, g.2 ++ [x]) else g)
    else acc ++ [(key x, [x])]) []

/-- Insertion of an element into a sorted list, after every element the
comparator places no later. -/
def insertSorted {α : Type} (le : α → α → Bool) (x : α) : List α → List α
  | [] => [x]
  | y :: ys => if le y x then y :: insertSorted le x ys else x :: y :: ys

/-- Stable sort (JavaScript `Array.prototype.sort` with a comparator, and the
SQL ORDER BY of the embedded queries): elements are inserted left to right,
so ties keep their original order. -/
def stableSortBy {α : Type} (le : α → α → Bool) (l : List α) : List α :=
  l.foldl (fun acc x => insertSorted le x acc) []

/-! ## Import pipeline (streamImport.ts) -/

/-- JavaScript number as delivered by a parser: either NaN or an integer. -/
inductive JsNumber : Type
  | nan : JsNumber
  | int : Int → JsNumber
deriving Repr, DecidableEq

/-- Parsed message as received by `onMessageBatch`; fields that JavaScript
may leave undefined are optional. -/
structure ParsedMsg where
  senderPlatformId : Option String
  senderAccountName : Option String
  senderGroupNickname : Option String
  timestamp : Option JsNumber
  type : Option Int
  content : Option String
deriving Repr, DecidableEq

/-- Validation at the top of the `onMessageBatch` loop: a message is skipped
when the sender platform id is falsy, the sender account name is falsy, the
timestamp is undefined, null or NaN, or the type is undefined or null. -/
def shouldDropMessage (m : ParsedMsg) : Bool :=
  strFalsy m.senderPlatformId || strFalsy m.senderAccountName ||
  (match m.timestamp with
   | none => true
   | some .nan => true
   | some (.int _) => false) ||
  m.type.isNone

/-- Timestamp of a message that passed validation. -/
def tsOf (m : ParsedMsg) : Int :=
  match m.timestamp with
  | some (.int n) => n
  | _ => 0

/-- Row of the `member` table (`platform_id` carries a UNIQUE constraint). -/
structure MemberRow where
  id : Nat
  platformId : String
  accountName : Option String
  groupNickname : Option String
  aliases : String
  avatar : Option String
deriving Repr, DecidableEq

/-- Row of the `message` table (the autoincrement id is the list position). -/
structure MessageRow where
  senderId : Nat
  senderAccountName : Option String
  senderGroupNickname : Option String
  ts : Int
  type : Int
  content : Option String
deriving Repr, DecidableEq

/-- Member delivered by the `members` parser event. -/
structure ParsedMemberRec where
  platformId : String
  accountName : Option String
  groupNickname : Option String
  avatar : Option String
deriving Repr, DecidableEq

/-- Next autoincrement id for the member table. -/
def nextMemberId (tbl : List MemberRow) : Nat :=
  (tbl.map (·.id)).foldl max 0 + 1

/-- INSERT OR IGNORE INTO member: a row whose platform id is already present
leaves the table unchanged. -/
def insertMemberOrIgnore (tbl : List MemberRow) (pid : String)
    (acct gnick av : Option String) : List MemberRow :=
  if tbl.any (fun r => r.platformId = pid) then tbl
  else tbl ++ [⟨nextMemberId tbl, pid, acct, gnick, "[]", av⟩]

/-- SELECT id FROM member WHERE platform_id = ?. -/
def lookupMemberId (tbl : List MemberRow) (pid : String) : Option Nat :=
  (tbl.find? (fun r => r.platformId = pid)).map (·.id)

/-- In-memory state of the import loop: member table, the
platform-id-to-row-id map, and the message table. -/
structure ImportState where
  members : List MemberRow
  idMap : List (String × Nat)
  messages : List MessageRow
deriving Repr, DecidableEq

/-- Empty state right after `createDatabaseWithoutIndexes`. -/
def ImportState.initial : ImportState := ⟨[], [], []⟩

/-- JavaScript `Map.set`. -/
def mapSet (m : List (String × Nat)) (k : String) (v : Nat) : List (String × Nat) :=
  if m.any (fun p => p.1 = k) then m.map (fun p => if p.1 = k then (k, v) else p)
  else m ++ [(k, v)]

/-- JavaScript `Map.get`. -/
def mapGet (m : List (String × Nat)) (k : String) : Option Nat :=
  (m.find? (fun p => p.1 = k)).map (·.2)

/-- Body of the `onMembers` handler for a single roster member: INSERT OR
IGNORE followed by an id lookup recorded in the map. -/
def upsertRosterMember (st : ImportState) (m : ParsedMemberRec) : ImportState :=
  match lookupMemberId (insertMemberOrIgnore st.members m.platformId
      (orNull m.accountName) (orNull m.groupNickname) (orNull m.avatar)) m.platformId with
  | some i =>
    { st with
      members := insertMemberOrIgnore st.members m.platformId
        (orNull m.accountName) (orNull m.groupNickname) (orNull m.avatar)
      idMap := mapSet st.idMap m.platformId i }
  | none =>
    { st with
      members := insertMemberOrIgnore st.members m.platformId
        (orNull m.accountName) (orNull m.groupNickname) (orNull m.avatar) }

/-- The `onMembers` handler: initial roster insertion. -/
def onMembersEvent (st : ImportState) (members : List ParsedMemberRec) : ImportState :=
  members.foldl upsertRosterMember st

/-- First-seen member handling of the message loop: when the map lacks the
platform id, INSERT OR IGNORE an avatar-less row, look its id up and record
it in the map. -/
def ensureMember (st : ImportState) (pid : String) (acct gnick : Option String) :
    ImportState :=
  if (mapGet st.idMap pid).isSome then st
  else
    match lookupMemberId (insertMemberOrIgnore st.members pid acct gnick none) pid with
    | some i =>
      { st with
        members := insertMemberOrIgnore st.members pid acct gnick none
        idMap := mapSet st.idMap pid i }
    | none =>
      { st with members := insertMemberOrIgnore st.members pid acct gnick none }

/-- One iteration of the `onMessageBatch` loop: validation, first-seen member
insertion (avatar-less), then the message insert. -/
def processMessage (st : ImportState) (m : ParsedMsg) : ImportState :=
  if shouldDropMessage m then st
  else
    match mapGet (ensureMember st (m.senderPlatformId.getD "")
        (orNull m.senderAccountName) (orNull m.senderGroupNickname)).idMap
        (m.senderPlatformId.getD "") with
    | none => ensureMember st (m.senderPlatformId.getD "")
        (orNull m.senderAccountName) (orNull m.senderGroupNickname)
    | some senderId =>
      { ensureMember st (m.senderPlatformId.getD "")
          (orNull m.senderAccountName) (orNull m.senderGroupNickname) with
        messages := (ensureMember st (m.senderPlatformId.getD "")
          (orNull m.senderAccountName) (orNull m.senderGroupNickname)).messages ++
          [⟨senderId, orNull m.senderAccountName, orNull m.senderGroupNickname,
            tsOf m, m.type.getD 0, m.content⟩] }

/-- The `onMessageBatch` handler over a whole batch. -/
def onMessageBatch (st : ImportState) (msgs : List ParsedMsg) : ImportState :=
  msgs.foldl processMessage st

/-! ## Nickname-history tracking and compaction (streamImport.ts) -/

/-- Message in a staging store, as read back by `TempDbReader.streamMessages`
(account name already coalesced to the platform id, empty content read as
undefined). -/
structure StagedMessage where
  senderPlatformId : String
  senderAccountName : String
  senderGroupNickname : Option String
  timestamp : Nat
  type : Int
  content : Option String
deriving Repr, DecidableEq

/-- UTF-16 length of `(msg.content || '')`. -/
def contentLen (m : StagedMessage) : Nat := utf16Length (m.content.getD "")

/-- The unique message key used for dedup and conflict counting:
the template literal timestamp_sender_contentLength. -/
def getMessageKey (m : StagedMessage) : List Char :=
  natDigits m.timestamp ++ ('_' :: (m.senderPlatformId.data ++ ('_' :: natDigits (contentLen m))))

/-- Head of the pure-image pattern: the literal characters before the
whitespace-and-body part. -/
def imageHeadChars : List Char := ['[', '图', '片', ':']

/-- Match of the regex part between the head and the closing bracket:
some split into leading whitespace and a non-empty run of characters the
regex dot accepts. -/
def imageBodyMatch (body : List Char) : Bool :=
  (List.range body.length).any (fun k =>
    (body.take k).all isJsWhitespace && (body.drop k).all (fun c => !isLineTerminator c))

/-- Match of the anchored pure-image regex against a character list. -/
def imageRegexMatch (t : List Char) : Bool :=
  imageHeadChars.isPrefixOf t &&
    (match (t.drop 4).getLast? with
     | some c => c = ']' && imageBodyMatch (t.drop 4).dropLast
     | none => false)

/-- The `isImageOnlyMessage` check on a (string-typed) content value: falsy
content fails, otherwise the trimmed content must match the pattern. -/
def isImageOnlyStr (s : String) : Bool :=
  if s = "" then false else imageRegexMatch (jsTrim s.data)

/-- Conflict record pushed by the detection loop. The `sender` field reads a
property absent from the parsed message type, so it always falls back to the
sender platform id. -/
structure MergeConflict where
  id : String
  timestamp : Nat
  sender : String
  contentLength1 : Nat
  contentLength2 : Nat
  content1 : String
  content2 : String
deriving Repr, DecidableEq

/-- Conflict id string. -/
def conflictId (ts : Nat) (sender : String) (idx : Nat) : String :=
  "conflict_" ++ natStr ts ++ "_" ++ sender ++ "_" ++ natStr idx

/-- One (i, j) step of the cross-content pair loop: take the first item of
the first content group, find an item of the second group from another
source; both pure-image contents auto-deduplicate, otherwise a conflict is
recorded. -/
def handlePair (ts : Nat) (sender : String)
    (e1 e2 : String × List (StagedMessage × String))
    (st : List MergeConflict × Nat) : List MergeConflict × Nat :=
  match e1.2 with
  | [] => st
  | item1 :: _ =>
    match e2.2.find? (fun it => it.2 ≠ item1.2) with
    | none => st
    | some _ =>
      if isImageOnlyStr e1.1 && isImageOnlyStr e2.1 then (st.1, st.2 + 1)
      else
        (st.1 ++ [⟨conflictId ts sender st.1.length, ts, sender,
          utf16Length e1.1, utf16Length e2.1, e1.1, e2.1⟩], st.2)

/-- The nested i-then-j loop over ordered content groups. -/
def pairLoop (ts : Nat) (sender : String) :
    List (String × List (StagedMessage × String)) →
    List MergeConflict × Nat → List MergeConflict × Nat
  | [], st => st
  | e :: rest, st =>
    pairLoop ts sender rest (rest.foldl (fun s e2 => handlePair ts sender e e2 s) st)

/-- Processing of one (timestamp, sender) bucket: single-source buckets are
skipped; same-content copies from several sources count as auto-dedup; with
several content variants the pair loop runs. -/
def processSenderGroup (ts : Nat) (st : List MergeConflict × Nat)
    (sg : String × List (StagedMessage × String)) : List MergeConflict × Nat :=
  if sg.2.length < 2 then st
  else if (dedupKeys (sg.2.map (·.2))).length < 2 then st
  else
    let contentGroups := groupByKey (fun it => it.1.content.getD "") sg.2
    let autoDedup2 := st.2 + contentGroups.foldl (fun a cg =>
      if 1 < cg.2.length && 1 < (dedupKeys (cg.2.map (·.2))).length then
        a + (cg.2.length - 1)
      else a) 0
    if 1 < contentGroups.length then pairLoop ts sg.1 contentGroups (st.1, autoDedup2)
    else (st.1, autoDedup2)

/-- Result of conflict detection: the conflict list, the auto-dedup counter
maintained by the loop, and the size of the post-dedup key set. -/
structure ConflictCheckOutcome where
  conflicts : List MergeConflict
  autoDeduplicatedCount : Nat
  totalMessages : Nat
deriving Repr, DecidableEq

/-- The `detectConflictsInMessages` pass over all (message, source) pairs. -/
def detectConflictsInMessages (all : List (StagedMessage × String)) :
    ConflictCheckOutcome :=
  let timeGroups := groupByKey (fun it => it.1.timestamp) all
  let res := timeGroups.foldl (fun st tg =>
    if tg.2.length < 2 then st
    else (groupByKey (fun it => it.1.senderPlatformId) tg.2).foldl
      (fun st2 sg => processSenderGroup tg.1 st2 sg) st) ([], 0)
  ⟨res.1, res.2, (dedupKeys (all.map (fun it => getMessageKey it.1))).length⟩

/-- Meta row of a staging store. -/
structure StagedMeta where
  name : String
  platform : String
  type : String
deriving Repr, DecidableEq

/-- One merge input: its staging store contents and its source file name;
messages are listed in the order `streamMessages` yields them (timestamp
ascending). -/
structure StagedSource where
  meta : Option StagedMeta
  members : List ParsedMemberRec
  messages : List StagedMessage
deriving Repr, DecidableEq

/-- Platform tag a source reports to the conflict check:
`getMeta()?.platform || 'unknown'`. -/
def sourcePlatformTag (s : StagedSource) : String :=
  match s.meta with
  | none => "unknown"
  | some m => if m.platform = "" then "unknown" else m.platform

/-- The `checkConflictsWithTempDb` entry point: reads all messages, rejects
when the sources report more than one distinct platform tag, otherwise runs
conflict detection. -/
def checkConflictsWithTempDb (sources : List (StagedSource × String)) :
    Except String ConflictCheckOutcome :=
  let allMessages := sources.foldl
    (fun acc s => acc ++ s.1.messages.map (fun m => (m, s.2))) []
  let uniquePlatforms := dedupKeys (sources.map (fun s => sourcePlatformTag s.1))
  if 1 < uniquePlatforms.length then Except.error "不支持合并不同格式的聊天记录"
  else Except.ok (detectConflictsInMessages allMessages)

/-- Member of the merged output. -/
structure ChatMember where
  platformId : String
  accountName : Option String
  groupNickname : Option String
  avatar : Option String
deriving Repr, DecidableEq

/-- Attribute upgrade when a later source mentions an existing member:
truthy values overwrite. -/
def upgradeMember (existing : ChatMember) (m : ParsedMemberRec) : ChatMember :=
  { existing with
    accountName := match orNull m.accountName with
      | some v => some v
      | none => existing.accountName,
    groupNickname := match orNull m.groupNickname with
      | some v => some v
      | none => existing.groupNickname,
    avatar := match orNull m.avatar with
      | some v => some v
      | none => existing.avatar }

/-- Union merge of the member lists of all sources. -/
def mergeMembers (sources : List StagedSource) : List ChatMember :=
  sources.foldl (fun acc s => s.members.foldl (fun a m =>
    if a.any (fun e => e.platformId = m.platformId) then
      a.map (fun e => if e.platformId = m.platformId then upgradeMember e m else e)
    else a ++ [⟨m.platformId, m.accountName, m.groupNickname, m.avatar⟩]) acc) []

/-- Streaming dedup of the merge: a message whose key was already seen is
skipped, otherwise it is pushed and its key remembered. -/
def dedupMessagesByKey : List StagedMessage → List (List Char) → List StagedMessage
  | [], _ => []
  | m :: rest, seen =>
    if getMessageKey m ∈ seen then dedupMessagesByKey rest seen
    else m :: dedupMessagesByKey rest (getMessageKey m :: seen)

/-- Comparator of the final stable sort by timestamp. -/
def tsLe (a b : StagedMessage) : Bool := a.timestamp ≤ b.timestamp

/-- Canonical merged output (the parts the merge computes before writing). -/
structure MergedOutput where
  platform : String
  type : String
  members : List ChatMember
  messages : List StagedMessage
deriving Repr, DecidableEq

/-- Metas of all sources, erring on the first missing one. -/
def allMetas : List (StagedSource × String) → Option (List StagedMeta)
  | [] => some []
  | s :: rest =>
    match s.1.meta, allMetas rest with
    | some m, some l => some (m :: l)
    | _, _ => none

/-- The `mergeFilesWithTempDb` entry point (up to file output): member union,
streaming key dedup over the sources in order, stable timestamp sort, and
platform determination, which labels mixed inputs `'mixed'` instead of
rejecting them. -/
def mergeFilesWithTempDb (sources : List (StagedSource × String)) :
    Except String MergedOutput :=
  match allMetas sources with
  | none => Except.error "无法读取元信息"
  | some metas =>
    let members := mergeMembers (sources.map (·.1))
    let merged := dedupMessagesByKey
      (sources.foldl (fun acc s => acc ++ s.1.messages) []) []
    let sorted := stableSortBy tsLe merged
    let platforms := dedupKeys (metas.map (·.platform))
    let platform :=
      if platforms.length = 1 then ((metas.head?).map (·.platform)).getD "mixed"
      else "mixed"
    Except.ok ⟨platform, ((metas.head?).map (·.type)).getD "group", members, sorted⟩

/-! ## Query layer: context window (worker/query/messages.ts) -/

/-- Message row as consulted by the context-window query; only the id and a
payload are relevant. -/
structure MsgIdRow where
  id : Nat
  content : String
deriving Repr, DecidableEq

/-- Ascending id comparator (ORDER BY id ASC). -/
def idLe (a b : MsgIdRow) : Bool := a.id ≤ b.id

/-- Rows selected by `WHERE id < ? ORDER BY id DESC LIMIT ?`. -/
def ctxBefore (db : List MsgIdRow) (mid k : Nat) : List MsgIdRow :=
  ((stableSortBy idLe (db.filter (fun r => r.id < mid))).reverse).take k

/-- Rows selected by `WHERE id > ? ORDER BY id ASC LIMIT ?`. -/
def ctxAfter (db : List MsgIdRow) (mid k : Nat) : List MsgIdRow :=
  (stableSortBy idLe (db.filter (fun r => mid < r.id))).take k

/-- All ids collected into the context id set; the set is modelled as a
list because only membership is consulted by the final filter. -/
def contextIds (db : List MsgIdRow) (seeds : List Nat) (k : Nat) : List Nat :=
  seeds.foldl (fun acc mid =>
    acc ++ (mid :: ((ctxBefore db mid k).map (·.id) ++ (ctxAfter db mid k).map (·.id)))) []

/-- The `getMessageContext` query: per seed, the seed id plus the k nearest
ids below and above, then one batched select ordered by id. -/
def getMessageContext (db : List MsgIdRow) (seeds : List Nat) (k : Nat) :
    List MsgIdRow :=
  if seeds.isEmpty then []
  else
    let ids := contextIds db seeds k
    if ids.isEmpty then []
    else stableSortBy idLe (db.filter (fun r => r.id ∈ ids))

/-- Context window as the claim words it: the union over seeds of the rows
whose id lies in the closed interval from id − k to id + k, id-ordered. -/
def contextSpecClaim (db : List MsgIdRow) (seeds : List Nat) (k : Nat) :
    List MsgIdRow :=
  stableSortBy idLe (db.filter (fun r => seeds.any (fun s => s ≤ r.id + k && r.id ≤ s + k)))

/-! ## Query layer: cursor pagination (worker/query/messages.ts) -/

/-- Message row joined with its sender as consulted by the pagination and
aggregate queries. -/
structure PageRow where
  id : Nat
  senderId : Nat
  accountName : Option String
  ts : Int
  type : Int
  content : Option String
deriving Repr, DecidableEq

/-- Uniform filter object of the query layer. -/
structure TimeFilter where
  startTs : Option Int
  endTs : Option Int
  memberId : Option Nat
deriving Repr, DecidableEq

/-- Modelled from the spec: `buildTimeFilter` lives in the worker core module,
which is not part of the provided sources; per the spec the optional
`startTs`, `endTs` and `memberId` are independent, composed conjunctively,
and boundary timestamps are included. -/
def timeFilterKeep (f : Option TimeFilter) (senderId : Nat) (ts : Int) : Bool :=
  match f with
  | none => true
  | some f =>
    (match f.startTs with | none => true | some s => s ≤ ts) &&
    (match f.endTs with | none => true | some e => ts ≤ e) &&
    (match f.memberId with | none => true | some m => senderId = m)

/-- ASCII lower-casing, the case folding SQL LIKE applies by default. -/
def asciiLower (c : Char) : Char :=
  if 65 ≤ c.toNat && c.toNat ≤ 90 then Char.ofNat (c.toNat + 32) else c

/-- Substring test on character lists. -/
def containsSub : List Char → List Char → Bool
  | needle, [] => needle.isEmpty
  | needle, c :: rest => needle.isPrefixOf (c :: rest) || containsSub needle rest

/-- SQL `content LIKE '%keyword%'` for a wildcard-free keyword:
ASCII-case-insensitive substring containment. -/
def likeContains (keyword text : String) : Bool :=
  containsSub (keyword.data.map asciiLower) (text.data.map asciiLower)

/-- Keyword OR-group of the pagination queries; a NULL content fails every
LIKE, and an absent or empty keyword list imposes no condition. -/
def keywordKeep (keywords : Option (List String)) (content : Option String) : Bool :=
  match keywords with
  | none => true
  | some [] => true
  | some ks =>
    match content with
    | none => false
    | some c => ks.any (fun k => likeContains k c)

/-- Optional sender condition `msg.sender_id = ?`. -/
def senderKeep (senderId : Option Nat) (rowSender : Nat) : Bool :=
  match senderId with
  | none => true
  | some s => rowSender = s

/-- The SYSTEM_FILTER condition: COALESCE(account_name, '') must differ from
the system author name. -/
def systemKeep (accountName : Option String) : Bool :=
  !((accountName.getD "") = "系统消息")

/-- Full WHERE clause of `getMessagesBefore` except the cursor. -/
def pageFilterKeep (f : Option TimeFilter) (senderId : Option Nat)
    (keywords : Option (List String)) (r : PageRow) : Bool :=
  timeFilterKeep f r.senderId r.ts && keywordKeep keywords r.content &&
    senderKeep senderId r.senderId && systemKeep r.accountName

/-- Ascending id comparator over page rows. -/
def pageIdLe (a b : PageRow) : Bool := a.id ≤ b.id

/-- The `getMessagesBefore` query: rows strictly below the cursor matching
the filter, ordered id-descending, over-fetched by one row to compute
`hasMore`, then returned id-ascending. -/
def getMessagesBefore (db : List PageRow) (beforeId limit : Nat)
    (f : Option TimeFilter) (senderId : Option Nat)
    (keywords : Option (List String)) : List PageRow × Bool :=
  let sel := db.filter (fun r =>
    decide (r.id < beforeId) && pageFilterKeep f senderId keywords r)
  let rows := ((stableSortBy pageIdLe sel).reverse).take (limit + 1)
  let hasMore := limit < rows.length
  ((if hasMore then rows.take limit else rows).reverse, hasMore)

/-- The `getMessagesAfter` query: rows strictly above the cursor, ordered
id-ascending, with the same over-fetch. -/
def getMessagesAfter (db : List PageRow) (afterId limit : Nat)
    (f : Option TimeFilter) (senderId : Option Nat)
    (keywords : Option (List String)) : List PageRow × Bool :=
  let sel := db.filter (fun r =>
    decide (afterId < r.id) && pageFilterKeep f senderId keywords r)
  let rows := (stableSortBy pageIdLe sel).take (limit + 1)
  let hasMore := limit < rows.length
  ((if hasMore then rows.take limit else rows), hasMore)

/-! ## Query layer: weekday distribution (basic query module) -/

/-- Modelled from the spec: `buildSystemMessageFilter` of the worker core
appends the system-author exclusion to the given clause; the embedded
weekday query applies it through `systemKeep`. -/
def weekdayKeep (f : Option TimeFilter) (r : PageRow) : Bool :=
  timeFilterKeep f r.senderId r.ts && systemKeep r.accountName

/-- Weekday of `ts` in system local time as SQLite strftime reports it:
0 for Sunday through 6 for Saturday. The local zone is environmental, so it
enters as a parameter. -/
def weekdayMapped (wd : Int → Fin 7) (t : Int) : Nat :=
  if (wd t).val = 0 then 7 else (wd t).val

/-- The GROUP BY weekday result: one (weekday, count) group per weekday value
with at least one matching row, ordered by weekday. -/
def weekdayGroups (wd : Int → Fin 7) (db : List PageRow) (f : Option TimeFilter) :
    List (Nat × Nat) :=
  (List.range' 1 7).filterMap (fun w =>
    let c := (db.filter (weekdayKeep f)).countP
      (fun r => weekdayMapped wd r.ts = w)
    if c = 0 then none else some (w, c))

/-- The `getWeekdayActivity` query: the grouped counts materialised into
seven buckets, absent weekdays becoming zero. -/
def getWeekdayActivity (wd : Int → Fin 7) (db : List PageRow) (f : Option TimeFilter) :
    List (Nat × Nat) :=
  (List.range' 1 7).map (fun w =>
    match (weekdayGroups wd db f).find? (fun g => g.1 = w) with
    | some g => (w, g.2)
    | none => (w, 0))

/-! ## Member deletion (basic query module) -/

/-- Member row of a session store as touched by deletion. -/
structure StoreMember where
  id : Nat
  platformId : String
  accountName : Option String
deriving Repr, DecidableEq

/-- Message row of a session store as touched by deletion. -/
structure StoreMessage where
  id : Nat
  senderId : Nat
  ts : Int
  type : Int
  content : Option String
deriving Repr, DecidableEq

/-- Name-history row of a session store as touched by deletion. -/
structure StoreHistory where
  id : Nat
  memberId : Nat
  nameType : String
  name : String
  startTs : Int
  endTs : Option Int
deriving Repr, DecidableEq

/-- Meta row of a session store. -/
structure MetaRow where
  name : String
  platform : String
  type : String
  importedAt : Int
deriving Repr, DecidableEq

/-- Session store contents as far as member deletion is concerned. -/
structure SessionStore where
  meta : List MetaRow
  members : List StoreMember
  messages : List StoreMessage
  history : List StoreHistory
deriving Repr, DecidableEq

/-- The `deleteMember` operation: `none` stands for a missing store file and
returns false untouched; otherwise one transaction deletes the member's
messages, its name history and the member row. -/
def deleteMember : Option SessionStore → Nat → Option SessionStore × Bool
  | none, _ => (none, false)
  | some st, mid =>
    (some { st with
      messages := st.messages.filter (fun r => r.senderId ≠ mid),
      history := st.history.filter (fun r => r.memberId ≠ mid),
      members := st.members.filter (fun r => r.id ≠ mid) }, true)

/-! ## Auxiliary definitions used by the verification -/

/-- Message types of the wire-stable enum (unknown inputs are normalised to
99 by the per-format mapping tables before reaching the import loop). -/
def knownMessageType (t : Int) : Bool :=
  t = 0 || t = 1 || t = 2 || t = 3 || t = 4 || t = 5 || t = 7 || t = 8 ||
  t = 20 || t = 21 || t = 22 || t = 23 || t = 24 || t = 25 || t = 26 || t = 27 ||
  t = 80 || t = 81 || t = 99

/-- Drop condition exactly as the specification words it: missing sender id,
missing timestamp (or not a number), or unknown type. -/
def claimedDropCondition (m : ParsedMsg) : Bool :=
  strFalsy m.senderPlatformId ||
  (match m.timestamp with
   | none => true
   | some .nan => true
   | some (.int _) => false) ||
  (match m.type with
   | none => true
   | some t => !knownMessageType t)

/-- Projection of a stored message row to the fields that are independent of
member-id assignment. -/
def projMsgRow (r : MessageRow) : Option String × Option String × Int × Int × Option String :=
  (r.senderAccountName, r.senderGroupNickname, r.ts, r.type, r.content)

/-- The same projection computed from a parsed message that passed
validation. -/
def projParsed (m : ParsedMsg) : Option String × Option String × Int × Int × Option String :=
  (orNull m.senderAccountName, orNull m.senderGroupNickname, tsOf m, m.type.getD 0, m.content)

/-! ## Library lemmas about the stable sort -/

theorem insertSorted_perm {α : Type} (le : α → α → Bool) (x : α) (l : List α) :
    (insertSorted le x l).Perm (x :: l) := by
  induction l with
  | nil => exact List.Perm.refl _
  | cons y ys ih =>
    unfold insertSorted
    by_cases h : le y x = true
    · rw [if_pos h]
      exact (ih.cons y).trans (List.Perm.swap x y ys)
    · rw [if_neg h]

theorem foldl_insertSorted_perm {α : Type} (le : α → α → Bool) :
    ∀ (l acc : List α), (l.foldl (fun a x => insertSorted le x a) acc).Perm (acc ++ l) := by
  intro l
  induction l with
  | nil => intro acc; simp
  | cons x xs ih =>
    intro acc
    have h1 := ih (insertSorted le x acc)
    have h2 : (insertSorted le x acc ++ xs).Perm ((x :: acc) ++ xs) :=
      (insertSorted_perm le x acc).append_right xs
    have h3 : ((x :: acc) ++ xs).Perm (acc ++ x :: xs) := by
      simpa using List.perm_middle.symm
    simpa using (h1.trans h2).trans h3

theorem stableSortBy_perm {α : Type} (le : α → α → Bool) (l : List α) :
    (stableSortBy le l).Perm l := by
  simpa using foldl_insertSorted_perm le l []

theorem length_stableSortBy {α : Type} (le : α → α → Bool) (l : List α) :
    (stableSortBy le l).length = l.length :=
  (stableSortBy_perm le l).length_eq

theorem mem_stableSortBy {α : Type} {le : α → α → Bool} {l : List α} {x : α} :
    x ∈ stableSortBy le l ↔ x ∈ l :=
  (stableSortBy_perm le l).mem_iff

theorem insertSorted_of_forall_le {α : Type} {le : α → α → Bool} {x : α} {l : List α}
    (h : ∀ y ∈ l, le y x = true) : insertSorted le x l = l ++ [x] := by
  induction l with
  | nil => rfl
  | cons y ys ih =>
    unfold insertSorted
    rw [if_pos (h y (List.mem_cons_self y ys))]
    rw [ih (fun z hz => h z (List.mem_cons_of_mem y hz))]
    rfl

theorem foldl_insertSorted_of_sorted {α : Type} {le : α → α → Bool} :
    ∀ {l acc : List α}, l.Pairwise (fun a b => le a b = true) →
      (∀ y ∈ acc, ∀ x ∈ l, le y x = true) →
      l.foldl (fun a x => insertSorted le x a) acc = acc ++ l := by
  intro l
  induction l with
  | nil => intro acc _ _; simp
  | cons x xs ih =>
    intro acc hp hall
    have hins : insertSorted le x acc = acc ++ [x] :=
      insertSorted_of_forall_le (fun y hy => hall y hy x (List.mem_cons_self x xs))
    have hxxs : ∀ z ∈ xs, le x z = true := (List.pairwise_cons.mp hp).1
    have hall2 : ∀ y ∈ acc ++ [x], ∀ z ∈ xs, le y z = true := by
      intro y hy z hz
      rcases List.mem_append.mp hy with hy | hy
      · exact hall y hy z (List.mem_cons_of_mem x hz)
      · rcases List.mem_singleton.mp hy with rfl
        exact hxxs z hz
    calc (x :: xs).foldl (fun a x => insertSorted le x a) acc
        = xs.foldl (fun a x => insertSorted le x a) (insertSorted le x acc) := rfl
      _ = (acc ++ [x]) ++ xs := by rw [hins]; exact ih (List.pairwise_cons.mp hp).2 hall2
      _ = acc ++ x :: xs := by simp

theorem stableSortBy_of_sorted {α : Type} {le : α → α → Bool} {l : List α}
    (h : l.Pairwise (fun a b => le a b = true)) : stableSortBy le l = l := by
  simpa using foldl_insertSorted_of_sorted h (by intro y hy; simp at hy)

/-! ## C10: member deletion -/

/-- C10: deleteMember removes, in one transaction, exactly the member's
message rows, its name-history rows and the member row itself; the meta row
and every other member's data are untouched, and a missing store file
returns false without modification. -/
theorem c10_deleteMember (st : SessionStore) (mid : Nat) :
    deleteMember none mid = (none, false) ∧
    ∃ st2 : SessionStore, deleteMember (some st) mid = (some st2, true) ∧
      st2.meta = st.meta ∧
      st2.messages.Sublist st.messages ∧
      st2.history.Sublist st.history ∧
      st2.members.Sublist st.members ∧
      (∀ r : StoreMessage, r ∈ st2.messages ↔ r ∈ st.messages ∧ r.senderId ≠ mid) ∧
      (∀ r : StoreHistory, r ∈ st2.history ↔ r ∈ st.history ∧ r.memberId ≠ mid) ∧
      (∀ r : StoreMember, r ∈ st2.members ↔ r ∈ st.members ∧ r.id ≠ mid) := by
  refine ⟨rfl, _, rfl, rfl, List.filter_sublist _, List.filter_sublist _,
    List.filter_sublist _, ?_, ?_, ?_⟩
  · intro r; simp [List.mem_filter]
  · intro r; simp [List.mem_filter]
  · intro r; simp [List.mem_filter]

theorem c10_deleteMember_witness :
    deleteMember (none : Option SessionStore) 1 = (none, false) :=
  (c10_deleteMember ⟨[], [], [], []⟩ 1).1

/-! ## C4: mixed-platform handling in the merger -/

/-- C4 (amended): the conflict check rejects sources reporting more than one
platform tag with a structured error, and the merge itself does not reject
mixed platforms but labels the produced output platform `mixed`. -/
theorem c4_mixed_platforms (sources : List (StagedSource × String))
    (h : 1 < (dedupKeys (sources.map (fun s => sourcePlatformTag s.1))).length) :
    checkConflictsWithTempDb sources = Except.error "不支持合并不同格式的聊天记录" ∧
    ∀ metas, allMetas sources = some metas →
      (dedupKeys (metas.map (·.platform))).length ≠ 1 →
      ∃ out, mergeFilesWithTempDb sources = Except.ok out ∧ out.platform = "mixed" := by
  constructor
  · unfold checkConflictsWithTempDb
    rw [if_pos h]
  · intro metas hm hlen
    unfold mergeFilesWithTempDb
    rw [hm]
    refine ⟨_, rfl, ?_⟩
    simp only [if_neg hlen]

/-- C4 counterexample to the claim as stated: merging one qq source with one
wechat source does not fail; it produces output tagged with the platform
`mixed`. -/
theorem c4_counterexample :
    mergeFilesWithTempDb
      [(⟨some ⟨"G", "qq", "group"⟩, [], []⟩, "a.json"),
       (⟨some ⟨"G", "wechat", "group"⟩, [], []⟩, "b.json")] =
      Except.ok ⟨"mixed", "group", [], []⟩ := rfl

theorem c4_witness :
    checkConflictsWithTempDb
      [(⟨some ⟨"G", "qq", "group"⟩, [], []⟩, "a.json"),
       (⟨some ⟨"G", "wechat", "group"⟩, [], []⟩, "b.json")] =
      Except.error "不支持合并不同格式的聊天记录" :=
  (c4_mixed_platforms _ (by decide)).1

/-! ## Lemmas about the member map and table -/

theorem find?_map_update (m : List (String × Nat)) (k : String) (v : Nat)
    (h : m.any (fun p => p.1 = k) = true) :
    (m.map (fun p => if p.1 = k then (k, v) else p)).find? (fun p => p.1 = k) =
      some (k, v) := by
  induction m with
  | nil => simp at h
  | cons p ps ih =>
    simp only [List.any_cons, Bool.or_eq_true, decide_eq_true_eq] at h
    by_cases hp : p.1 = k
    · simp [List.find?_cons, hp]
    · rw [List.map_cons, if_neg hp]
      rw [List.find?_cons_of_neg _ (by simpa using hp)]
      exact ih (by tauto)

theorem mapGet_mapSet_self (m : List (String × Nat)) (k : String) (v : Nat) :
    mapGet (mapSet m k v) k = some v := by
  unfold mapSet mapGet
  by_cases h : m.any (fun p => p.1 = k) = true
  · rw [if_pos h, find?_map_update m k v h]
    rfl
  · rw [if_neg h, List.find?_append]
    have hnone : m.find? (fun p => decide (p.1 = k)) = none := by
      rw [List.find?_eq_none]
      intro x hx
      have := List.any_eq_false.mp (Bool.eq_false_iff.mpr h) x hx
      simpa using this
    rw [hnone]
    simp

theorem lookupMemberId_insert_isSome (tbl : List MemberRow) (pid : String)
    (a g v : Option String) :
    (lookupMemberId (insertMemberOrIgnore tbl pid a g v) pid).isSome = true := by
  unfold insertMemberOrIgnore lookupMemberId
  by_cases h : tbl.any (fun r => r.platformId = pid) = true
  · rw [if_pos h]
    rw [Option.isSome_map']
    rw [List.find?_isSome]
    simpa using List.any_eq_true.mp h
  · rw [if_neg h]
    rw [Option.isSome_map']
    rw [List.find?_isSome]
    exact ⟨_, List.mem_append_right _ (List.mem_singleton_self _), by simp⟩

/-- Messages are untouched by the first-seen member handling. -/
theorem ensureMember_messages (st : ImportState) (pid : String)
    (acct gnick : Option String) :
    (ensureMember st pid acct gnick).messages = st.messages := by
  unfold ensureMember
  by_cases hmap : (mapGet st.idMap pid).isSome = true
  · rw [if_pos hmap]
  · rw [if_neg hmap]
    rcases lookupMemberId (insertMemberOrIgnore st.members pid acct gnick none) pid
      with _ | i <;> rfl

/-- Shape of the member table after the first-seen member handling. -/
theorem ensureMember_members (st : ImportState) (pid : String)
    (acct gnick : Option String) :
    (ensureMember st pid acct gnick).members = st.members ∨
    (ensureMember st pid acct gnick).members =
      insertMemberOrIgnore st.members pid acct gnick none := by
  unfold ensureMember
  by_cases hmap : (mapGet st.idMap pid).isSome = true
  · rw [if_pos hmap]; left; rfl
  · rw [if_neg hmap]
    rcases lookupMemberId (insertMemberOrIgnore st.members pid acct gnick none) pid
      with _ | i
    · right; rfl
    · right; rfl

/-- After the first-seen member handling, the map resolves the platform id
whenever it already did before or the table lookup behind INSERT OR IGNORE
succeeds, which is always. -/
theorem ensureMember_mapGet_isSome (st : ImportState) (pid : String)
    (acct gnick : Option String) :
    (mapGet (ensureMember st pid acct gnick).idMap pid).isSome = true := by
  unfold ensureMember
  by_cases hmap : (mapGet st.idMap pid).isSome = true
  · rw [if_pos hmap]; exact hmap
  · rw [if_neg hmap]
    have hl := lookupMemberId_insert_isSome st.members pid acct gnick none
    rcases hli : lookupMemberId (insertMemberOrIgnore st.members pid acct gnick none) pid
      with _ | i
    · rw [hli] at hl; simp at hl
    · simp only [hli]
      rw [mapGet_mapSet_self]
      rfl

/-- Shape of the member table after one `processMessage` step: unchanged or
grown by one INSERT OR IGNORE. -/
theorem processMessage_members (st : ImportState) (m : ParsedMsg) :
    (processMessage st m).members = st.members ∨
    ∃ pid acct gnick, (processMessage st m).members =
      insertMemberOrIgnore st.members pid acct gnick none := by
  unfold processMessage
  by_cases hd : shouldDropMessage m = true
  · rw [if_pos hd]; left; rfl
  · rw [if_neg hd]
    rcases hg : mapGet (ensureMember st (m.senderPlatformId.getD "")
        (orNull m.senderAccountName) (orNull m.senderGroupNickname)).idMap
        (m.senderPlatformId.getD "") with _ | sid
    · simp only []
      rcases ensureMember_members st (m.senderPlatformId.getD "")
        (orNull m.senderAccountName) (orNull m.senderGroupNickname) with hm | hm
      · left; exact hm
      · right; exact ⟨_, _, _, hm⟩
    · simp only []
      rcases ensureMember_members st (m.senderPlatformId.getD "")
        (orNull m.senderAccountName) (orNull m.senderGroupNickname) with hm | hm
      · left; exact hm
      · right; exact ⟨_, _, _, hm⟩

/-- The message table effect of one `processMessage` step. -/
theorem processMessage_messages (st : ImportState) (m : ParsedMsg) :
    (shouldDropMessage m = true → processMessage st m = st) ∧
    (shouldDropMessage m = false → ∃ sid,
      (processMessage st m).messages = st.messages ++
        [⟨sid, orNull m.senderAccountName, orNull m.senderGroupNickname,
          tsOf m, m.type.getD 0, m.content⟩]) := by
  constructor
  · intro hd
    unfold processMessage
    rw [if_pos hd]
  · intro hd
    unfold processMessage
    rw [if_neg (by simp [hd])]
    have hsm := ensureMember_mapGet_isSome st (m.senderPlatformId.getD "")
      (orNull m.senderAccountName) (orNull m.senderGroupNickname)
    rcases Option.isSome_iff_exists.mp hsm with ⟨sid, hsid⟩
    rw [hsid]
    refine ⟨sid, ?_⟩
    simp only []
    rw [ensureMember_messages]

/-- The whole-batch message effect, observed through the member-independent
projection. -/
theorem onMessageBatch_messages :
    ∀ (msgs : List ParsedMsg) (st : ImportState),
      (onMessageBatch st msgs).messages.map projMsgRow =
        st.messages.map projMsgRow ++
          (msgs.filter (fun x => !shouldDropMessage x)).map projParsed := by
  intro msgs
  induction msgs with
  | nil => intro st; simp [onMessageBatch]
  | cons m rest ih =>
    intro st
    have hstep : (onMessageBatch st (m :: rest)) = onMessageBatch (processMessage st m) rest := rfl
    rw [hstep, ih]
    by_cases hd : shouldDropMessage m = true
    · rw [(processMessage_messages st m).1 hd]
      simp [List.filter_cons, hd]
    · rcases (processMessage_messages st m).2 (Bool.eq_false_iff.mpr hd) with ⟨sid, hmsg⟩
      rw [hmsg]
      simp [List.filter_cons, hd, projMsgRow, projParsed]

/-- Characterisation of the code's drop condition. -/
theorem shouldDrop_iff (m : ParsedMsg) :
    shouldDropMessage m = true ↔
      (m.senderPlatformId = none ∨ m.senderPlatformId = some "" ∨
       m.senderAccountName = none ∨ m.senderAccountName = some "" ∨
       m.timestamp = none ∨ m.timestamp = some JsNumber.nan ∨ m.type = none) := by
  obtain ⟨pid, acct, gn, ts, ty, ct⟩ := m
  simp only [shouldDropMessage, strFalsy, Bool.or_eq_true, Option.isNone]
  cases pid <;> cases acct <;>
    rcases ts with _ | tv <;> (try cases tv) <;> cases ty <;> simp

/-! ## C2: message validation during import -/

/-- C2 (amended): a parsed message is dropped exactly when its sender
platform id is missing or empty, its sender account name is missing or
empty, its timestamp is missing or NaN, or its type field is missing; every
message passing this validation is inserted into the message table. -/
theorem c2_batch_validation (st : ImportState) (msgs : List ParsedMsg) :
    (∀ m : ParsedMsg, shouldDropMessage m = true ↔
      (m.senderPlatformId = none ∨ m.senderPlatformId = some "" ∨
       m.senderAccountName = none ∨ m.senderAccountName = some "" ∨
       m.timestamp = none ∨ m.timestamp = some JsNumber.nan ∨ m.type = none)) ∧
    (onMessageBatch st msgs).messages.map projMsgRow =
      st.messages.map projMsgRow ++
        (msgs.filter (fun x => !shouldDropMessage x)).map projParsed :=
  ⟨shouldDrop_iff, onMessageBatch_messages msgs st⟩

/-- C2 counterexample to the claim as stated: a message with a sender id, a
valid timestamp and the known type 0 but a missing sender account name is
dropped by the code, while the claimed drop condition does not cover it. -/
theorem c2_counterexample :
    shouldDropMessage ⟨some "10", none, none, some (JsNumber.int 1700000000), some 0, some "hi"⟩ = true ∧
    claimedDropCondition ⟨some "10", none, none, some (JsNumber.int 1700000000), some 0, some "hi"⟩ = false ∧
    (onMessageBatch ImportState.initial
      [⟨some "10", none, none, some (JsNumber.int 1700000000), some 0, some "hi"⟩]).messages = [] := by
  refine ⟨rfl, ?_, rfl⟩
  decide

theorem c2_witness :
    (onMessageBatch ImportState.initial
      [⟨some "10", some "A", none, some (JsNumber.int 1700000000), some 0, some "hi"⟩]).messages.map projMsgRow =
      [(some "A", none, (1700000000 : Int), (0 : Int), some "hi")] := by
  have h := (c2_batch_validation ImportState.initial
    [⟨some "10", some "A", none, some (JsNumber.int 1700000000), some 0, some "hi"⟩]).2
  simpa using h

/-! ## C9: platform-id uniqueness of the member table -/

theorem nodup_insertMemberOrIgnore (tbl : List MemberRow) (pid : String)
    (a g v : Option String)
    (h : (tbl.map (·.platformId)).Nodup) :
    ((insertMemberOrIgnore tbl pid a g v).map (·.platformId)).Nodup := by
  unfold insertMemberOrIgnore
  by_cases hin : tbl.any (fun r => r.platformId = pid) = true
  · rw [if_pos hin]; exact h
  · rw [if_neg hin]
    rw [List.map_append]
    simp only [List.map_cons, List.map_nil]
    rw [List.nodup_append]
    refine ⟨h, List.nodup_singleton _, ?_⟩
    intro x hx hx2
    rcases List.mem_singleton.mp hx2 with rfl
    rcases List.mem_map.mp hx with ⟨r, hr, hrp⟩
    have hne := List.any_eq_false.mp (Bool.eq_false_iff.mpr hin) r hr
    simp only [decide_eq_true_eq] at hne
    exact hne hrp

/-- Uniqueness is preserved by the roster handler. -/
theorem nodup_onMembersEvent :
    ∀ (roster : List ParsedMemberRec) (st : ImportState),
      (st.members.map (·.platformId)).Nodup →
      ((onMembersEvent st roster).members.map (·.platformId)).Nodup := by
  intro roster
  induction roster with
  | nil => intro st h; exact h
  | cons m rest ih =>
    intro st h
    have hstep : onMembersEvent st (m :: rest) = onMembersEvent (upsertRosterMember st m) rest := rfl
    rw [hstep]
    refine ih _ ?_
    have hm : (upsertRosterMember st m).members =
        insertMemberOrIgnore st.members m.platformId
          (orNull m.accountName) (orNull m.groupNickname) (orNull m.avatar) := by
      unfold upsertRosterMember
      rcases lookupMemberId
          (insertMemberOrIgnore st.members m.platformId
            (orNull m.accountName) (orNull m.groupNickname) (orNull m.avatar))
          m.platformId with _ | i <;> rfl
    rw [hm]
    exact nodup_insertMemberOrIgnore _ _ _ _ _ h

/-- Uniqueness is preserved by the message batch handler. -/
theorem nodup_onMessageBatch :
    ∀ (msgs : List ParsedMsg) (st : ImportState),
      (st.members.map (·.platformId)).Nodup →
      ((onMessageBatch st msgs).members.map (·.platformId)).Nodup := by
  intro msgs
  induction msgs with
  | nil => intro st h; exact h
  | cons m rest ih =>
    intro st h
    have hstep : onMessageBatch st (m :: rest) = onMessageBatch (processMessage st m) rest := rfl
    rw [hstep]
    refine ih _ ?_
    rcases processMessage_members st m with hm | ⟨pid, acct, gnick, hm⟩
    · rw [hm]; exact h
    · rw [hm]; exact nodup_insertMemberOrIgnore _ _ _ _ _ h

/-- C9: starting from a member table with pairwise distinct platform ids,
the initial roster insertion followed by any message batches keeps platform
ids unique, and inserting an already-present platform id leaves the member
table unchanged. -/
theorem c9_platform_id_unique (st : ImportState) (roster : List ParsedMemberRec)
    (batches : List (List ParsedMsg))
    (h : (st.members.map (·.platformId)).Nodup) :
    ((batches.foldl onMessageBatch (onMembersEvent st roster)).members.map
      (·.platformId)).Nodup ∧
    ∀ (tbl : List MemberRow) (pid : String) (acct gnick av : Option String),
      tbl.any (fun r => r.platformId = pid) = true →
      insertMemberOrIgnore tbl pid acct gnick av = tbl := by
  constructor
  · have hfold : ∀ (bs : List (List ParsedMsg)) (st2 : ImportState),
        (st2.members.map (·.platformId)).Nodup →
        ((bs.foldl onMessageBatch st2).members.map (·.platformId)).Nodup := by
      intro bs
      induction bs with
      | nil => intro st2 h2; exact h2
      | cons b rest ih => intro st2 h2; exact ih _ (nodup_onMessageBatch b st2 h2)
    exact hfold batches _ (nodup_onMembersEvent roster st h)
  · intro tbl pid acct gnick av hin
    unfold insertMemberOrIgnore
    rw [if_pos hin]

theorem c9_witness :
    (([([⟨some "10", some "A", none, some (JsNumber.int 1), some 0, none⟩] : List ParsedMsg)]).foldl
      onMessageBatch
      (onMembersEvent ImportState.initial [⟨"10", some "A", none, none⟩])).members.map
        (·.platformId) = ["10"] ∧
    ((([([⟨some "10", some "A", none, some (JsNumber.int 1), some 0, none⟩] : List ParsedMsg)]).foldl
      onMessageBatch
      (onMembersEvent ImportState.initial [⟨"10", some "A", none, none⟩])).members.map
        (·.platformId)).Nodup := by
  refine ⟨by decide, ?_⟩
  exact (c9_platform_id_unique ImportState.initial [⟨"10", some "A", none, none⟩]
    [[⟨some "10", some "A", none, some (JsNumber.int 1), some 0, none⟩]] (by decide)).1

/-! ## C1: nickname-history compaction -/

theorem digitChar_toNat (d : Nat) (h : d < 10) : (digitChar d).toNat = 48 + d := by
  interval_cases d <;> decide

theorem natDigits_digits : ∀ (n : Nat), ∀ c ∈ natDigits n, 48 ≤ c.toNat ∧ c.toNat ≤ 57 := by
  intro n
  induction n using Nat.strong_induction_on with
  | _ n ih =>
    intro c hc
    rw [natDigits] at hc
    by_cases h : n < 10
    · rw [dif_pos h] at hc
      rcases List.mem_singleton.mp hc with rfl
      rw [digitChar_toNat n h]
      omega
    · rw [dif_neg h] at hc
      rcases List.mem_append.mp hc with hc | hc
      · exact ih (n / 10) (Nat.div_lt_self (by omega) (by omega)) c hc
      · rcases List.mem_singleton.mp hc with rfl
        rw [digitChar_toNat (n % 10) (Nat.mod_lt n (by omega))]
        have := Nat.mod_lt n (show 0 < 10 by omega)
        omega

theorem decodeDigits_natDigits : ∀ (n : Nat), decodeDigits (natDigits n) = n := by
  intro n
  induction n using Nat.strong_induction_on with
  | _ n ih =>
    rw [natDigits]
    by_cases h : n < 10
    · rw [dif_pos h]
      unfold decodeDigits
      simp [List.foldl, digitVal, digitChar_toNat n h]
    · rw [dif_neg h]
      unfold decodeDigits
      rw [List.foldl_append]
      have hrec := ih (n / 10) (Nat.div_lt_self (by omega) (by omega))
      unfold decodeDigits at hrec
      rw [hrec]
      simp only [List.foldl]
      rw [digitVal, digitChar_toNat (n % 10) (Nat.mod_lt n (by omega))]
      omega

theorem natDigits_inj {a b : Nat} (h : natDigits a = natDigits b) : a = b := by
  rw [← decodeDigits_natDigits a, h, decodeDigits_natDigits]

theorem underscore_not_mem_natDigits (n : Nat) : '_' ∉ natDigits n := by
  intro hmem
  have := natDigits_digits n _ hmem
  have h95 : ('_' : Char).toNat = 95 := by decide
  omega

theorem append_sep_eq {α : Type} [DecidableEq α] {sep : α} :
    ∀ (xs1 : List α) (ys1 xs2 ys2 : List α), sep ∉ xs1 → sep ∉ xs2 →
      xs1 ++ sep :: ys1 = xs2 ++ sep :: ys2 → xs1 = xs2 ∧ ys1 = ys2 := by
  intro xs1
  induction xs1 with
  | nil =>
    intro ys1 xs2 ys2 h1 h2 heq
    cases xs2 with
    | nil => simpa using heq
    | cons b t2 =>
      exfalso
      simp only [List.nil_append, List.cons_append, List.cons.injEq] at heq
      exact h2 (heq.1 ▸ List.mem_cons_self b t2)
  | cons a t ih =>
    intro ys1 xs2 ys2 h1 h2 heq
    cases xs2 with
    | nil =>
      exfalso
      simp only [List.nil_append, List.cons_append, List.cons.injEq] at heq
      exact h1 (heq.1 ▸ List.mem_cons_self a t)
    | cons b t2 =>
      simp only [List.cons_append, List.cons.injEq] at heq
      obtain ⟨rfl, heq2⟩ := heq
      have hrec := ih ys1 t2 ys2 (fun hx => h1 (List.mem_cons_of_mem _ hx))
        (fun hx => h2 (List.mem_cons_of_mem _ hx)) heq2
      exact ⟨by rw [hrec.1], hrec.2⟩

/-- The string message key determines, and is determined by, the triple of
timestamp, sender platform id and content length. -/
theorem getMessageKey_eq_iff (m1 m2 : StagedMessage) :
    getMessageKey m1 = getMessageKey m2 ↔
      (m1.timestamp = m2.timestamp ∧ m1.senderPlatformId = m2.senderPlatformId ∧
        contentLen m1 = contentLen m2) := by
  constructor
  · intro h
    unfold getMessageKey at h
    have h1 := append_sep_eq (natDigits m1.timestamp) _ (natDigits m2.timestamp) _
      (underscore_not_mem_natDigits _) (underscore_not_mem_natDigits _) h
    obtain ⟨hts, hrest⟩ := h1
    have hrev := congrArg List.reverse hrest
    simp only [List.reverse_append, List.reverse_cons, List.append_assoc,
      List.singleton_append, List.nil_append] at hrev
    have h2 := append_sep_eq ((natDigits (contentLen m1)).reverse) _
      ((natDigits (contentLen m2)).reverse) _
      (fun hx => underscore_not_mem_natDigits _ (List.mem_reverse.mp hx))
      (fun hx => underscore_not_mem_natDigits _ (List.mem_reverse.mp hx)) hrev
    refine ⟨natDigits_inj hts, ?_, ?_⟩
    · exact String.ext (List.reverse_injective h2.2)
    · exact natDigits_inj (List.reverse_injective h2.1)
  · rintro ⟨h1, h2, h3⟩
    unfold getMessageKey
    rw [h1, h2, h3]

/-- The filtered view of the streaming dedup: for any key not yet seen, the
output keeps exactly the first occurrence. -/
theorem dedupMessagesByKey_filter (K : List Char) :
    ∀ (msgs : List StagedMessage) (seen : List (List Char)),
      (dedupMessagesByKey msgs seen).filter (fun x => getMessageKey x = K) =
        if K ∈ seen then [] else (msgs.filter (fun x => getMessageKey x = K)).take 1 := by
  intro msgs
  induction msgs with
  | nil =>
    intro seen
    unfold dedupMessagesByKey
    by_cases hk : K ∈ seen
    · rw [if_pos hk]; rfl
    · rw [if_neg hk]; rfl
  | cons m rest ih =>
    intro seen
    unfold dedupMessagesByKey
    by_cases hm : getMessageKey m ∈ seen
    · rw [if_pos hm]
      rw [ih seen]
      by_cases hk : K ∈ seen
      · rw [if_pos hk, if_pos hk]
      · rw [if_neg hk, if_neg hk]
        have hne : ¬(getMessageKey m = K) := fun he => hk (he ▸ hm)
        rw [List.filter_cons_of_neg (by simpa using hne)]
    · rw [if_neg hm]
      by_cases hmk : getMessageKey m = K
      · rw [List.filter_cons_of_pos (by simpa using hmk)]
        rw [ih (getMessageKey m :: seen)]
        rw [if_pos (by rw [← hmk]; exact List.mem_cons_self _ _)]
        by_cases hk : K ∈ seen
        · exact absurd (hmk ▸ hk) hm
        · rw [if_neg hk]
          rw [List.filter_cons_of_pos (by simpa using hmk)]
          rfl
      · rw [List.filter_cons_of_neg (by simpa using hmk)]
        rw [ih (getMessageKey m :: seen)]
        by_cases hk : K ∈ seen
        · rw [if_pos (List.mem_cons_of_mem _ hk), if_pos hk]
        · have hknot : K ∉ getMessageKey m :: seen := by
            intro hx
            rcases List.mem_cons.mp hx with hx | hx
            · exact hmk hx.symm
            · exact hk hx
          rw [if_neg hknot, if_neg hk]
          rw [List.filter_cons_of_neg (by simpa using hmk)]

theorem take_one_filter_eq_find?_toList {α : Type} (p : α → Bool) :
    ∀ (l : List α), (l.filter p).take 1 = (l.find? p).toList := by
  intro l
  induction l with
  | nil => rfl
  | cons a t ih =>
    by_cases ha : p a = true
    · rw [List.filter_cons_of_pos ha, List.find?_cons_of_pos _ ha]
      rfl
    · rw [List.filter_cons_of_neg (by simpa using ha),
        List.find?_cons_of_neg _ (by simpa using ha)]
      exact ih

/-- C3: two staged messages share a merge key exactly when they agree on
timestamp, sender platform id and UTF-16 content length, and the merged
output written for such a key is the first-processed variant; any later
message with the same key is skipped even when its content differs. -/
theorem c3_merge_key_dedup (m1 m2 : StagedMessage)
    (sources : List (StagedSource × String)) (metas : List StagedMeta)
    (hmeta : allMetas sources = some metas) (m : StagedMessage)
    (hm : m ∈ sources.foldl (fun acc s => acc ++ s.1.messages) []) :
    (getMessageKey m1 = getMessageKey m2 ↔
      (m1.timestamp = m2.timestamp ∧ m1.senderPlatformId = m2.senderPlatformId ∧
        contentLen m1 = contentLen m2)) ∧
    ∃ out f, mergeFilesWithTempDb sources = Except.ok out ∧
      (sources.foldl (fun acc s => acc ++ s.1.messages) []).find?
        (fun x => getMessageKey x = getMessageKey m) = some f ∧
      out.messages.filter (fun x => getMessageKey x = getMessageKey m) = [f] := by
  refine ⟨getMessageKey_eq_iff m1 m2, ?_⟩
  have hfind : ((sources.foldl (fun acc s => acc ++ s.1.messages) []).find?
      (fun x => getMessageKey x = getMessageKey m)).isSome = true := by
    rw [List.find?_isSome]
    exact ⟨m, hm, by simp⟩
  rcases Option.isSome_iff_exists.mp hfind with ⟨f, hf⟩
  have hmerge : mergeFilesWithTempDb sources = Except.ok
      ⟨(if (dedupKeys (metas.map (·.platform))).length = 1
          then ((metas.head?).map (·.platform)).getD "mixed" else "mixed"),
        ((metas.head?).map (·.type)).getD "group",
        mergeMembers (sources.map (·.1)),
        stableSortBy tsLe (dedupMessagesByKey
          (sources.foldl (fun acc s => acc ++ s.1.messages) []) [])⟩ := by
    unfold mergeFilesWithTempDb
    rw [hmeta]
  refine ⟨_, f, hmerge, hf, ?_⟩
  have hperm := (stableSortBy_perm tsLe
    (dedupMessagesByKey (sources.foldl (fun acc s => acc ++ s.1.messages) []) [])).filter
    (fun x => decide (getMessageKey x = getMessageKey m))
  have hded := dedupMessagesByKey_filter (getMessageKey m)
    (sources.foldl (fun acc s => acc ++ s.1.messages) []) []
  rw [if_neg (by simp)] at hded
  rw [take_one_filter_eq_find?_toList] at hded
  rw [hf] at hded
  rw [hded] at hperm
  exact List.perm_singleton.mp hperm

theorem c3_witness :
    ∃ out f,
      mergeFilesWithTempDb
        [(⟨some ⟨"G", "qq", "group"⟩, [], [⟨"10", "10", none, 100, 0, some "x"⟩]⟩, "a.json"),
         (⟨some ⟨"G", "qq", "group"⟩, [], [⟨"10", "10", none, 100, 0, some "y"⟩]⟩, "b.json")] =
        Except.ok out ∧
      ([⟨"10", "10", none, 100, 0, some "x"⟩, ⟨"10", "10", none, 100, 0, some "y"⟩]
        : List StagedMessage).find?
        (fun x => getMessageKey x = getMessageKey (⟨"10", "10", none, 100, 0, some "x"⟩ : StagedMessage)) = some f ∧
      out.messages.filter
        (fun x => getMessageKey x = getMessageKey (⟨"10", "10", none, 100, 0, some "x"⟩ : StagedMessage)) = [f] := by
  have h := (c3_merge_key_dedup
    ⟨"10", "10", none, 100, 0, some "x"⟩ ⟨"10", "10", none, 100, 0, some "y"⟩
    [(⟨some ⟨"G", "qq", "group"⟩, [], [⟨"10", "10", none, 100, 0, some "x"⟩]⟩, "a.json"),
     (⟨some ⟨"G", "qq", "group"⟩, [], [⟨"10", "10", none, 100, 0, some "y"⟩]⟩, "b.json")]
    [⟨"G", "qq", "group"⟩, ⟨"G", "qq", "group"⟩] (by decide)
    ⟨"10", "10", none, 100, 0, some "x"⟩ (by decide)).2
  simpa using h

/-! ## C5: auto-deduplication of pure-image conflicts -/

/-- C5: when two sources hold messages with equal timestamp and sender whose
contents differ but both match the pure-image pattern, conflict detection
reports no conflict and counts exactly one auto-deduplication. -/
theorem c5_image_autodedup (m1 m2 : StagedMessage) (s1 s2 : String)
    (hts : m1.timestamp = m2.timestamp)
    (hpid : m1.senderPlatformId = m2.senderPlatformId)
    (hsrc : s1 ≠ s2)
    (hcont : m1.content.getD "" ≠ m2.content.getD "")
    (himg1 : isImageOnlyStr (m1.content.getD "") = true)
    (himg2 : isImageOnlyStr (m2.content.getD "") = true) :
    (detectConflictsInMessages [(m1, s1), (m2, s2)]).conflicts = [] ∧
    (detectConflictsInMessages [(m1, s1), (m2, s2)]).autoDeduplicatedCount = 1 := by
  have htg : groupByKey (fun it => it.1.timestamp)
      ([(m1, s1), (m2, s2)] : List (StagedMessage × String)) =
      [(m2.timestamp, [(m1, s1), (m2, s2)])] := by
    unfold groupByKey
    simp [hts]
  have hsg : groupByKey (fun it => it.1.senderPlatformId)
      ([(m1, s1), (m2, s2)] : List (StagedMessage × String)) =
      [(m2.senderPlatformId, [(m1, s1), (m2, s2)])] := by
    unfold groupByKey
    simp [hpid]
  have hcg : groupByKey (fun it => it.1.content.getD "")
      ([(m1, s1), (m2, s2)] : List (StagedMessage × String)) =
      [(m1.content.getD "", [(m1, s1)]), (m2.content.getD "", [(m2, s2)])] := by
    unfold groupByKey
    simp [hcont, Ne.symm hcont]
  have hdk : dedupKeys [s1, s2] = [s1, s2] := by
    unfold dedupKeys
    simp [Ne.symm hsrc]
  have hhp : handlePair m2.timestamp m2.senderPlatformId
      (m1.content.getD "", [(m1, s1)]) (m2.content.getD "", [(m2, s2)])
      (([] : List MergeConflict), 0) = ([], 1) := by
    simp only [handlePair]
    rw [List.find?_cons_of_pos _ (by simp [Ne.symm hsrc])]
    rw [himg1, himg2]
    rfl
  have hpl : pairLoop m2.timestamp m2.senderPlatformId
      [(m1.content.getD "", [(m1, s1)]), (m2.content.getD "", [(m2, s2)])]
      (([] : List MergeConflict), 0) = ([], 1) := by
    unfold pairLoop
    simp only [List.foldl_cons, List.foldl_nil]
    rw [hhp]
    unfold pairLoop
    simp only [List.foldl_nil]
    unfold pairLoop
    rfl
  have hps : processSenderGroup m2.timestamp (([] : List MergeConflict), 0)
      (m2.senderPlatformId, [(m1, s1), (m2, s2)]) = ([], 1) := by
    simp only [processSenderGroup]
    simp [hcg, hdk, hpl]
  have hmain : detectConflictsInMessages [(m1, s1), (m2, s2)] =
      ⟨[], 1, (dedupKeys [getMessageKey m1, getMessageKey m2]).length⟩ := by
    simp only [detectConflictsInMessages]
    simp [htg, hsg, hps]
  rw [hmain]
  exact ⟨rfl, rfl⟩

theorem c5_witness :
    (detectConflictsInMessages
      [(⟨"10", "10", none, 100, 0, some "[图片: a.jpg]"⟩, "s1.json"),
       (⟨"10", "10", none, 100, 0, some "[图片: b.jpg]"⟩, "s2.json")]).conflicts = [] ∧
    (detectConflictsInMessages
      [(⟨"10", "10", none, 100, 0, some "[图片: a.jpg]"⟩, "s1.json"),
       (⟨"10", "10", none, 100, 0, some "[图片: b.jpg]"⟩, "s2.json")]).autoDeduplicatedCount = 1 :=
  c5_image_autodedup
    ⟨"10", "10", none, 100, 0, some "[图片: a.jpg]"⟩
    ⟨"10", "10", none, 100, 0, some "[图片: b.jpg]"⟩
    "s1.json" "s2.json" rfl rfl (by decide) (by decide) (by decide) (by decide)

/-! ## C8: weekday distribution -/

theorem find?_filterMap_ifcount {c : Nat → Nat} :
    ∀ (l : List Nat), l.Nodup → ∀ w ∈ l,
      (l.filterMap (fun x => if c x = 0 then none else some (x, c x))).find?
        (fun g => g.1 = w) =
      (if c w = 0 then none else some (w, c w)) := by
  intro l
  induction l with
  | nil => intro _ w hw; simp at hw
  | cons x t ih =>
    intro hnd w hw
    obtain ⟨hxt, hndt⟩ := List.nodup_cons.mp hnd
    rw [List.filterMap_cons]
    by_cases hcx : c x = 0
    · rw [if_pos hcx]
      rcases List.mem_cons.mp hw with rfl | hwt
      · rw [if_pos hcx]
        rw [List.find?_eq_none]
        intro p hp
        rcases List.mem_filterMap.mp hp with ⟨a, ha, hfa⟩
        by_cases hca : c a = 0
        · rw [if_pos hca] at hfa; simp at hfa
        · rw [if_neg hca] at hfa
          simp only [Option.some.injEq] at hfa
          rw [← hfa]
          simp only [decide_eq_true_eq]
          intro hax
          exact hxt (hax ▸ ha)
      · exact ih hndt w hwt
    · rw [if_neg hcx]
      by_cases hxw : x = w
      · rcases hxw
        rw [List.find?_cons_of_pos _ (by simp)]
        rw [if_neg hcx]
      · rw [List.find?_cons_of_neg _ (by simp [hxw])]
        rcases List.mem_cons.mp hw with rfl | hwt
        · exact absurd rfl hxw
        · exact ih hndt w hwt

theorem weekdayGroups_find? (wd : Int → Fin 7) (db : List PageRow)
    (f : Option TimeFilter) (w : Nat) (hw : w ∈ List.range' 1 7) :
    (weekdayGroups wd db f).find? (fun g => g.1 = w) =
      (if (db.filter (weekdayKeep f)).countP (fun r => weekdayMapped wd r.ts = w) = 0
       then none
       else some (w, (db.filter (weekdayKeep f)).countP
         (fun r => weekdayMapped wd r.ts = w))) := by
  show ((List.range' 1 7).filterMap (fun x =>
      if (db.filter (weekdayKeep f)).countP (fun r => weekdayMapped wd r.ts = x) = 0
      then none
      else some (x, (db.filter (weekdayKeep f)).countP
        (fun r => weekdayMapped wd r.ts = x)))).find? (fun g => g.1 = w) = _
  exact find?_filterMap_ifcount _ (by decide) w hw

/-- C8: the weekday distribution returns exactly the seven buckets numbered
Monday 1 through Sunday 7; each bucket's count is the number of matching
messages whose mapped local weekday equals the bucket (zero when none), and
the native weekday 0 maps to 7 while the others keep their number. -/
theorem c8_weekday_activity (wd : Int → Fin 7) (db : List PageRow)
    (f : Option TimeFilter) :
    (getWeekdayActivity wd db f).map Prod.fst = [1, 2, 3, 4, 5, 6, 7] ∧
    (∀ w c, (w, c) ∈ getWeekdayActivity wd db f →
      c = (db.filter (weekdayKeep f)).countP (fun r => weekdayMapped wd r.ts = w)) ∧
    (∀ t, (wd t).val = 0 → weekdayMapped wd t = 7) ∧
    (∀ t, (wd t).val ≠ 0 → weekdayMapped wd t = (wd t).val) := by
  refine ⟨?_, ?_, ?_, ?_⟩
  · unfold getWeekdayActivity
    rw [List.map_map]
    have hcong : ∀ x ∈ List.range' 1 7,
        (Prod.fst ∘ fun w =>
          (match (weekdayGroups wd db f).find? (fun g => g.1 = w) with
           | some g => (w, g.2)
           | none => (w, 0))) x = id x := by
      have hfst : ∀ (o : Option (Nat × Nat)) (x : Nat),
          (match o with | some g => (x, g.2) | none => (x, 0)).1 = x := by
        intro o x
        rcases o with _ | g <;> rfl
      intro x hx
      exact hfst ((weekdayGroups wd db f).find? (fun g => g.1 = x)) x
    rw [List.map_congr_left hcong]
    rw [List.map_id]
    rfl
  · intro w c hmem
    unfold getWeekdayActivity at hmem
    rcases List.mem_map.mp hmem with ⟨w2, hw2, he⟩
    rw [weekdayGroups_find? wd db f w2 hw2] at he
    by_cases hc0 : (db.filter (weekdayKeep f)).countP
        (fun r => weekdayMapped wd r.ts = w2) = 0
    · rw [if_pos hc0] at he
      simp only [Prod.mk.injEq] at he
      rw [← he.1, ← he.2]
      omega
    · rw [if_neg hc0] at he
      simp only [Prod.mk.injEq] at he
      rw [← he.1, ← he.2]
  · intro t h
    unfold weekdayMapped
    rw [if_pos h]
  · intro t h
    unfold weekdayMapped
    rw [if_neg h]

theorem c8_witness :
    (getWeekdayActivity (fun _ => (0 : Fin 7)) [] none).map Prod.fst =
      [1, 2, 3, 4, 5, 6, 7] :=
  (c8_weekday_activity (fun _ => (0 : Fin 7)) [] none).1

/-! ## C7: cursor pagination -/

/-- C7: getMessagesBefore returns only rows with id strictly below the
cursor and getMessagesAfter only rows strictly above it; both apply the same
time, keyword, sender and system filter, return at most `limit` rows, and
report hasMore exactly when a (limit+1)-th matching row exists. -/
theorem c7_pagination (db : List PageRow) (beforeId afterId limit : Nat)
    (f : Option TimeFilter) (senderId : Option Nat)
    (keywords : Option (List String)) :
    (∀ r ∈ (getMessagesBefore db beforeId limit f senderId keywords).1,
      r.id < beforeId ∧ pageFilterKeep f senderId keywords r = true) ∧
    (getMessagesBefore db beforeId limit f senderId keywords).1.length ≤ limit ∧
    ((getMessagesBefore db beforeId limit f senderId keywords).2 = true ↔
      limit + 1 ≤ (db.filter (fun r =>
        decide (r.id < beforeId) && pageFilterKeep f senderId keywords r)).length) ∧
    (∀ r ∈ (getMessagesAfter db afterId limit f senderId keywords).1,
      afterId < r.id ∧ pageFilterKeep f senderId keywords r = true) ∧
    (getMessagesAfter db afterId limit f senderId keywords).1.length ≤ limit ∧
    ((getMessagesAfter db afterId limit f senderId keywords).2 = true ↔
      limit + 1 ≤ (db.filter (fun r =>
        decide (afterId < r.id) && pageFilterKeep f senderId keywords r)).length) := by
  refine ⟨?_, ?_, ?_, ?_, ?_, ?_⟩
  · intro r hr
    unfold getMessagesBefore at hr
    dsimp only at hr
    rw [List.mem_reverse] at hr
    have hr2 : r ∈ ((stableSortBy pageIdLe (db.filter (fun x =>
        decide (x.id < beforeId) && pageFilterKeep f senderId keywords x))).reverse).take
        (limit + 1) := by
      split at hr
      · exact List.mem_of_mem_take hr
      · exact hr
    have hr3 := List.mem_of_mem_take hr2
    rw [List.mem_reverse, mem_stableSortBy, List.mem_filter] at hr3
    obtain ⟨-, hp⟩ := hr3
    rw [Bool.and_eq_true] at hp
    exact ⟨by simpa using hp.1, hp.2⟩
  · unfold getMessagesBefore
    dsimp only
    rw [List.length_reverse]
    split
    · exact List.length_take_le _ _
    · next h =>
      simp only [decide_eq_true_eq, Nat.not_lt] at h
      exact h
  · unfold getMessagesBefore
    dsimp only
    rw [decide_eq_true_eq]
    rw [List.length_take, List.length_reverse, length_stableSortBy]
    omega
  · intro r hr
    unfold getMessagesAfter at hr
    dsimp only at hr
    have hr2 : r ∈ (stableSortBy pageIdLe (db.filter (fun x =>
        decide (afterId < x.id) && pageFilterKeep f senderId keywords x))).take
        (limit + 1) := by
      split at hr
      · exact List.mem_of_mem_take hr
      · exact hr
    have hr3 := List.mem_of_mem_take hr2
    rw [mem_stableSortBy, List.mem_filter] at hr3
    obtain ⟨-, hp⟩ := hr3
    rw [Bool.and_eq_true] at hp
    exact ⟨by simpa using hp.1, hp.2⟩
  · unfold getMessagesAfter
    dsimp only
    split
    · exact List.length_take_le _ _
    · next h =>
      simp only [decide_eq_true_eq, Nat.not_lt] at h
      exact h
  · unfold getMessagesAfter
    dsimp only
    rw [decide_eq_true_eq]
    rw [List.length_take, length_stableSortBy]
    omega

theorem c7_witness :
    (getMessagesBefore
      [⟨1, 1, some "A", 10, 0, some "hi"⟩, ⟨2, 1, some "A", 20, 0, some "yo"⟩,
       ⟨3, 1, some "A", 30, 0, some "hey"⟩] 3 1 none none none).2 = true ∧
    (getMessagesBefore
      [⟨1, 1, some "A", 10, 0, some "hi"⟩, ⟨2, 1, some "A", 20, 0, some "yo"⟩,
       ⟨3, 1, some "A", 30, 0, some "hey"⟩] 3 1 none none none).1.length ≤ 1 := by
  constructor
  · exact (c7_pagination
      [⟨1, 1, some "A", 10, 0, some "hi"⟩, ⟨2, 1, some "A", 20, 0, some "yo"⟩,
       ⟨3, 1, some "A", 30, 0, some "hey"⟩] 3 0 1 none none none).2.2.1.mpr (by decide)
  · exact (c7_pagination
      [⟨1, 1, some "A", 10, 0, some "hi"⟩, ⟨2, 1, some "A", 20, 0, some "yo"⟩,
       ⟨3, 1, some "A", 30, 0, some "hey"⟩] 3 0 1 none none none).2.1

/-! ## C6: context windows -/

theorem range'_filter_lt (s : Nat) : ∀ (n lo : Nat),
    (List.range' lo n).filter (fun i => decide (i < s)) =
      List.range' lo (min n (s - lo)) := by
  intro n
  induction n with
  | zero => intro lo; simp
  | succ m ih =>
    intro lo
    rw [List.range'_succ, List.filter_cons]
    by_cases hlo : lo < s
    · rw [if_pos (by simp [hlo])]
      rw [ih (lo + 1)]
      have harith : min (m + 1) (s - lo) = min m (s - (lo + 1)) + 1 := by omega
      rw [harith, List.range'_succ]
    · rw [if_neg (by simp [hlo])]
      rw [ih (lo + 1)]
      have h1 : min m (s - (lo + 1)) = 0 := by omega
      have h2 : min (m + 1) (s - lo) = 0 := by omega
      rw [h1, h2]
      rfl

theorem range'_filter_gt (s : Nat) : ∀ (n lo : Nat),
    (List.range' lo n).filter (fun i => decide (s < i)) =
      List.range' (max lo (s + 1)) (lo + n - max lo (s + 1)) := by
  intro n
  induction n with
  | zero =>
    intro lo
    have : lo + 0 - max lo (s + 1) = 0 := by omega
    simp [this]
  | succ m ih =>
    intro lo
    rw [List.range'_succ, List.filter_cons]
    by_cases hlo : s < lo
    · rw [if_pos (by simp [hlo])]
      rw [ih (lo + 1)]
      have h1 : max (lo + 1) (s + 1) = lo + 1 := by omega
      have h2 : max lo (s + 1) = lo := by omega
      rw [h1, h2]
      have h3 : lo + (m + 1) - lo = (lo + 1 + m - (lo + 1)) + 1 := by omega
      rw [h3, List.range'_succ]
    · rw [if_neg (by simp [hlo])]
      rw [ih (lo + 1)]
      have h1 : max (lo + 1) (s + 1) = s + 1 := by omega
      have h2 : max lo (s + 1) = s + 1 := by omega
      rw [h1, h2]
      have h3 : lo + 1 + m - (s + 1) = lo + (m + 1) - (s + 1) := by omega
      rw [h3]

theorem range'_take : ∀ (k n lo : Nat),
    (List.range' lo n).take k = List.range' lo (min k n) := by
  intro k
  induction k with
  | zero => intro n lo; simp
  | succ j ih =>
    intro n lo
    cases n with
    | zero => simp
    | succ m =>
      rw [List.range'_succ, List.take_succ_cons]
      rw [ih m (lo + 1)]
      have harith : min (j + 1) (m + 1) = min j m + 1 := by omega
      rw [harith, List.range'_succ]

theorem range'_drop : ∀ (j n lo : Nat),
    (List.range' lo n).drop j = List.range' (lo + j) (n - j) := by
  intro j
  induction j with
  | zero => intro n lo; simp
  | succ i ih =>
    intro n lo
    cases n with
    | zero => simp
    | succ m =>
      rw [List.range'_succ, List.drop_succ_cons]
      rw [ih m (lo + 1)]
      have h1 : lo + 1 + i = lo + (i + 1) := by omega
      have h2 : m - i = m + 1 - (i + 1) := by omega
      rw [h1, h2]

theorem range'_pairwise_lt : ∀ (n lo : Nat),
    (List.range' lo n).Pairwise (· < ·) := by
  intro n
  induction n with
  | zero => intro lo; simp
  | succ m ih =>
    intro lo
    rw [List.range'_succ, List.pairwise_cons]
    refine ⟨?_, ih (lo + 1)⟩
    intro x hx
    have := List.mem_range'_1.mp hx
    omega

theorem map_id_filter (p : Nat → Bool) :
    ∀ (db : List MsgIdRow),
      (db.filter (fun r => p r.id)).map (·.id) = (db.map (·.id)).filter p := by
  intro db
  induction db with
  | nil => rfl
  | cons r t ih =>
    rw [List.map_cons, List.filter_cons, List.filter_cons]
    by_cases hp : p r.id = true
    · rw [if_pos hp, if_pos hp, List.map_cons, ih]
    · rw [if_neg hp, if_neg hp, ih]

theorem mem_foldl_append {α β : Type} (g : β → List α) :
    ∀ (l : List β) (acc : List α) (x : α),
      x ∈ l.foldl (fun a b => a ++ g b) acc ↔ x ∈ acc ∨ ∃ b ∈ l, x ∈ g b := by
  intro l
  induction l with
  | nil => intro acc x; simp
  | cons b t ih =>
    intro acc x
    rw [List.foldl_cons, ih (acc ++ g b) x]
    simp only [List.mem_append, List.mem_cons]
    constructor
    · rintro ((hx | hx) | ⟨b2, hb2, hx⟩)
      · exact Or.inl hx
      · exact Or.inr ⟨b, Or.inl rfl, hx⟩
      · exact Or.inr ⟨b2, Or.inr hb2, hx⟩
    · rintro (hx | ⟨b2, (rfl | hb2), hx⟩)
      · exact Or.inl (Or.inl hx)
      · exact Or.inl (Or.inr hx)
      · exact Or.inr ⟨b2, hb2, hx⟩

theorem mem_contextIds (db : List MsgIdRow) (seeds : List Nat) (k i : Nat) :
    i ∈ contextIds db seeds k ↔
      ∃ s ∈ seeds, i = s ∨ i ∈ (ctxBefore db s k).map (·.id) ∨
        i ∈ (ctxAfter db s k).map (·.id) := by
  unfold contextIds
  rw [mem_foldl_append (fun mid =>
    mid :: ((ctxBefore db mid k).map (·.id) ++ (ctxAfter db mid k).map (·.id))) seeds [] i]
  simp only [List.not_mem_nil, false_or, List.mem_cons, List.mem_append]

theorem ctx_neighborhood_mem (db : List MsgIdRow) (lo n k s i : Nat)
    (hids : db.map (·.id) = List.range' lo n)
    (hs : s ∈ List.range' lo n) (hi : i ∈ List.range' lo n) :
    (i = s ∨ i ∈ (ctxBefore db s k).map (·.id) ∨ i ∈ (ctxAfter db s k).map (·.id)) ↔
      (s ≤ i + k ∧ i ≤ s + k) := by
  have hpw : (db.map (·.id)).Pairwise (· < ·) := by
    rw [hids]
    exact range'_pairwise_lt n lo
  have hdbpw : db.Pairwise (fun a b => a.id < b.id) := List.pairwise_map.mp hpw
  have hsorted : db.Pairwise (fun a b => idLe a b = true) :=
    hdbpw.imp (fun h => by simp only [idLe, decide_eq_true_eq]; omega)
  have hbsorted : (db.filter (fun r => decide (r.id < s))).Pairwise
      (fun a b => idLe a b = true) :=
    hsorted.sublist (List.filter_sublist db)
  have hasorted : (db.filter (fun r => decide (s < r.id))).Pairwise
      (fun a b => idLe a b = true) :=
    hsorted.sublist (List.filter_sublist db)
  have hmapb : (db.filter (fun r => decide (r.id < s))).map (·.id) =
      (db.map (·.id)).filter (fun x => decide (x < s)) :=
    map_id_filter (fun x => decide (x < s)) db
  have hmapa : (db.filter (fun r => decide (s < r.id))).map (·.id) =
      (db.map (·.id)).filter (fun x => decide (s < x)) :=
    map_id_filter (fun x => decide (s < x)) db
  have hbids : (ctxBefore db s k).map (·.id) =
      (List.range' (lo + (min n (s - lo) - k))
        (min n (s - lo) - (min n (s - lo) - k))).reverse := by
    unfold ctxBefore
    rw [stableSortBy_of_sorted hbsorted, List.map_take, List.map_reverse, hmapb, hids,
      range'_filter_lt, List.take_reverse, List.length_range', range'_drop]
  have haids : (ctxAfter db s k).map (·.id) =
      List.range' (max lo (s + 1)) (min k (lo + n - max lo (s + 1))) := by
    unfold ctxAfter
    rw [stableSortBy_of_sorted hasorted, List.map_take, hmapa, hids,
      range'_filter_gt, range'_take]
  rw [hbids, haids, List.mem_reverse, List.mem_range'_1, List.mem_range'_1]
  have hs1 := List.mem_range'_1.mp hs
  have hi1 := List.mem_range'_1.mp hi
  omega

/-- C6 (amended): when the session's message ids are contiguous and every
seed is an existing message id, getMessageContext agrees with the claimed
semantics of returning the union over seeds of the rows with id between
seed − k and seed + k, deduplicated and id-ordered; with gaps in the id
sequence it instead returns the k nearest rows below and above each seed. -/
theorem c6_context_contiguous (db : List MsgIdRow) (seeds : List Nat) (k lo n : Nat)
    (hids : db.map (·.id) = List.range' lo n)
    (hseeds : ∀ s ∈ seeds, s ∈ db.map (·.id)) :
    getMessageContext db seeds k = contextSpecClaim db seeds k := by
  unfold getMessageContext contextSpecClaim
  by_cases hempty : seeds.isEmpty = true
  · rw [if_pos hempty]
    have hseedsnil : seeds = [] := by
      cases seeds with
      | nil => rfl
      | cons a t => simp [List.isEmpty] at hempty
    rw [hseedsnil]
    simp [stableSortBy]
  · rw [if_neg hempty]
    obtain ⟨s0, t0, hst⟩ : ∃ s0 t0, seeds = s0 :: t0 := by
      cases seeds with
      | nil => simp [List.isEmpty] at hempty
      | cons a t => exact ⟨a, t, rfl⟩
    have hs0 : s0 ∈ seeds := by rw [hst]; exact List.mem_cons_self _ _
    have hs0mem : s0 ∈ contextIds db seeds k :=
      (mem_contextIds db seeds k s0).mpr ⟨s0, hs0, Or.inl rfl⟩
    have hcne : ¬((contextIds db seeds k).isEmpty = true) := by
      intro hx
      rw [List.isEmpty_iff] at hx
      rw [hx] at hs0mem
      exact List.not_mem_nil s0 hs0mem
    rw [if_neg hcne]
    have hfilters : db.filter (fun r => decide (r.id ∈ contextIds db seeds k)) =
        db.filter (fun r =>
          seeds.any (fun s => decide (s ≤ r.id + k) && decide (r.id ≤ s + k))) := by
      apply List.filter_congr
      intro r hr
      have hri : r.id ∈ db.map (·.id) := List.mem_map_of_mem _ hr
      rw [hids] at hri
      have hiff : (r.id ∈ contextIds db seeds k) ↔
          ∃ s ∈ seeds, s ≤ r.id + k ∧ r.id ≤ s + k := by
        rw [mem_contextIds]
        constructor
        · rintro ⟨s, hsmem, hcase⟩
          have hsr : s ∈ List.range' lo n := by
            rw [← hids]
            exact hseeds s hsmem
          exact ⟨s, hsmem, (ctx_neighborhood_mem db lo n k s r.id hids hsr hri).mp hcase⟩
        · rintro ⟨s, hsmem, hcase⟩
          have hsr : s ∈ List.range' lo n := by
            rw [← hids]
            exact hseeds s hsmem
          exact ⟨s, hsmem, (ctx_neighborhood_mem db lo n k s r.id hids hsr hri).mpr hcase⟩
      by_cases hmem : r.id ∈ contextIds db seeds k
      · rcases hiff.mp hmem with ⟨s, hsmem, h1, h2⟩
        rw [decide_eq_true hmem]
        have hR : seeds.any (fun s => decide (s ≤ r.id + k) && decide (r.id ≤ s + k)) = true := by
          rw [List.any_eq_true]
          exact ⟨s, hsmem, by simp [h1, h2]⟩
        rw [hR]
      · rw [decide_eq_false hmem]
        have hR : seeds.any (fun s => decide (s ≤ r.id + k) && decide (r.id ≤ s + k)) = false := by
          rw [List.any_eq_false]
          intro s hsmem hx
          rw [Bool.and_eq_true, decide_eq_true_eq, decide_eq_true_eq] at hx
          exact hmem (hiff.mpr ⟨s, hsmem, hx.1, hx.2⟩)
        rw [hR]
    rw [hfilters]

/-- C6 counterexample to the claim as stated: with message ids 1 and 10,
seed 10 and k = 1, the query returns both rows because it takes the nearest
row below the seed by id, while the claimed interval from 9 to 11 holds only
the seed row. -/
theorem c6_counterexample :
    getMessageContext [⟨1, "a"⟩, ⟨10, "b"⟩] [10] 1 = [⟨1, "a"⟩, ⟨10, "b"⟩] ∧
    contextSpecClaim [⟨1, "a"⟩, ⟨10, "b"⟩] [10] 1 = [⟨10, "b"⟩] ∧
    getMessageContext [⟨1, "a"⟩, ⟨10, "b"⟩] [10] 1 ≠
      contextSpecClaim [⟨1, "a"⟩, ⟨10, "b"⟩] [10] 1 := by
  refine ⟨by decide, by decide, by decide⟩

theorem c6_witness :
    getMessageContext [⟨1, "a"⟩, ⟨2, "b"⟩, ⟨3, "c"⟩, ⟨4, "d"⟩, ⟨5, "e"⟩] [3] 1 =
      contextSpecClaim [⟨1, "a"⟩, ⟨2, "b"⟩, ⟨3, "c"⟩, ⟨4, "d"⟩, ⟨5, "e"⟩] [3] 1 :=
  c6_context_contiguous _ [3] 1 1 5 (by decide) (by decide)

end ChatLab
